import Mathlib

/-!
Verification of the resume-reviewer core against its specification.

Strings are modelled as `List Char` (Python strings are sequences of code
points).  Byte blobs are modelled as `List Nat`.  External collaborators
(the two PDF libraries, the DOCX reader, UTF-8 decoding, and the remote
LLM) are parameters of the functions that call them, so every theorem
quantifies over their behaviour.
-/

namespace AiResumeReviewer

/-! ## parser.py — text normalizer (`_clean_text`) -/

/-- Characters matched by the regex class `[ \t]`. -/
def isSpTab (c : Char) : Bool := c == ' ' || c == '\t'

/-- The non-breaking space code point U+00A0. -/
def nbspChar : Char := Char.ofNat 160

/-- Code points stripped by Python `str.strip()` (Unicode whitespace). -/
def isPyWs (c : Char) : Bool :=
  (9 ≤ c.toNat && c.toNat ≤ 13) || c.toNat == 32 ||
  (28 ≤ c.toNat && c.toNat ≤ 31) || c.toNat == 133 || c.toNat == 160 ||
  c.toNat == 0x1680 || (0x2000 ≤ c.toNat && c.toNat ≤ 0x200A) ||
  c.toNat == 0x2028 || c.toNat == 0x2029 || c.toNat == 0x202F ||
  c.toNat == 0x205F || c.toNat == 0x3000

/-- Line 39 of parser.py: `text.replace("\xa0", " ")`. -/
def replaceNbsp (l : List Char) : List Char :=
  l.map fun c => if c = nbspChar then ' ' else c

/-- Line 40 of parser.py: `re.sub(r"[ \t]+", " ", text)`.  Each maximal run
of spaces/tabs is replaced by a single space; `inRun` records whether the
scanner is inside such a run (so further run characters are dropped). -/
def collapseSpTab : Bool → List Char → List Char
  | _, [] => []
  | inRun, c :: rest =>
    if isSpTab c then
      if inRun then collapseSpTab true rest
      else ' ' :: collapseSpTab true rest
    else c :: collapseSpTab false rest

/-- Line 41 of parser.py: `re.sub(r"\n{3,}", "\n\n", text)`.  Each maximal
run of newlines keeps at most its first two newlines (runs of length one or
two are unchanged; longer runs become exactly two).  `k` counts the
newlines already emitted in the current run. -/
def collapseNl : Nat → List Char → List Char
  | _, [] => []
  | k, c :: rest =>
    if c = '\n' then
      if 2 ≤ k then collapseNl k rest
      else '\n' :: collapseNl (k + 1) rest
    else c :: collapseNl 0 rest

/-- Removal of trailing `str.strip()` whitespace (the right half of
Python `.strip()`). -/
def rstripRec : List Char → List Char
  | [] => []
  | c :: rest =>
    if rstripRec rest = [] then (if isPyWs c then [] else [c])
    else c :: rstripRec rest

/-- Python `str.strip()`: drop leading, then trailing, whitespace. -/
def pyStrip (l : List Char) : List Char := rstripRec (l.dropWhile isPyWs)

/-- `_clean_text` from parser.py, lines 35-42: replace non-breaking
spaces, collapse space/tab runs, collapse 3+-newline runs, strip. -/
def clean_text (l : List Char) : List Char :=
  pyStrip (collapseNl 0 (collapseSpTab false (replaceNbsp l)))

/-! ## parser.py — extraction entry point -/

/-- Error taxonomy of the extraction pipeline (each `raise ValueError`
site of parser.py, under the names the specification gives them). -/
inductive ExtractErr where
  | emptyInput
  | tooLarge
  | unsupportedFormat
  | parseError
  deriving DecidableEq, Repr

/-- Declared MIME type of the upload, as dispatched on in
`extract_text_from_file`. -/
inductive FormatTag where
  | pdf
  | docx
  | plainText
  | unsupported
  deriving DecidableEq, Repr

/-- Line 53 of parser.py: `MAX_BYTES = 8 * 1024 * 1024`. -/
def MAX_BYTES : Nat := 8 * 1024 * 1024

/-- Join a list of strings with a newline (Python `"\n".join`). -/
def joinNl (xs : List (List Char)) : List Char := List.intercalate ['\n'] xs

/-- `_extract_pdf` from parser.py, lines 8-23.  The two PDF libraries are
abstracted by their outcomes on the given bytes: `primary` is the PyMuPDF
extraction (already joined text, or an error standing for any raised
exception); `fallbackPages` is the PyPDF2 page list, where `none` stands
for a page whose `extract_text()` returned `None` (the code turns it
into `""` via `or ""`). -/
def extract_pdf (primary : Except Unit (List Char))
    (fallbackPages : Except Unit (List (Option (List Char)))) :
    Except Unit (List Char) :=
  match primary with
  | .ok t => .ok t
  | .error _ =>
    match fallbackPages with
    | .ok pages => .ok (joinNl (pages.map fun p => p.getD []))
    | .error e => .error e

/-- `extract_text_from_file` from parser.py, lines 45-75.  The format
extractors and the UTF-8 decoder are parameters; an `.error` from an
extractor stands for any exception it raises (surfaced to the caller as a
parse failure, the spec's `DocumentParseError`). -/
def extract_text_from_file (raw : List Nat) (tag : FormatTag)
    (pdfPrimary : List Nat → Except Unit (List Char))
    (pdfFallback : List Nat → Except Unit (List (Option (List Char))))
    (docxExtract : List Nat → Except Unit (List Char))
    (decodeUtf8 : List Nat → List Char) : Except ExtractErr (List Char) :=
  if raw.length = 0 then .error .emptyInput
  else if MAX_BYTES < raw.length then .error .tooLarge
  else
    match tag with
    | .pdf =>
      match extract_pdf (pdfPrimary raw) (pdfFallback raw) with
      | .ok t => .ok (clean_text t)
      | .error _ => .error .parseError
    | .plainText => .ok (clean_text (decodeUtf8 raw))
    | .docx =>
      match docxExtract raw with
      | .ok t => .ok (clean_text t)
      | .error _ => .error .parseError
    | .unsupported => .error .unsupportedFormat

/-! ## Invariant predicates used to state the normalizer properties -/

/-- No two adjacent characters are both spaces/tabs (so no run of two or
more `[ \t]` characters occurs). -/
def noAdjSpTab : List Char → Bool
  | a :: b :: rest => (!(isSpTab a && isSpTab b)) && noAdjSpTab (b :: rest)
  | _ => true

/-- No three consecutive newline characters occur. -/
def noTripleNl : List Char → Bool
  | a :: b :: c :: rest =>
      (!(a == '\n' && b == '\n' && c == '\n')) && noTripleNl (b :: c :: rest)
  | _ => true

/-- Number of leading newline characters. -/
def leadNl (l : List Char) : Nat := (l.takeWhile (· == '\n')).length

/-! ## analyze.py — request builders -/

/-- The apostrophe character, written via its code point. -/
def apoChar : Char := Char.ofNat 39

/-- The apostrophe as a one-character string. -/
def apoStr : String := String.mk [apoChar]

/-- `RUBRIC_GENERAL` from analyze.py, lines 25-49. -/
def RUBRIC_GENERAL : List Char :=
  ("\nReturn JSON with keys:\n- overall_score (0-100)\n\n- summary (string)\n  * Provide a cohesive and concrete overview of 150–200 words, \n  * Include 2–3 high-impact observations and the candidate" ++ apoStr ++
   "s positioning for the target role\n\n- strengths (string[])\n  * Each bullet is a single, specific idea (no multi-sentence paragraphs)\n\n- issues (string[])\n  * Focus on clarity, structure, impact, metrics, formatting consistency\n\n- action_items (string[])\n  * Imperative voice (“Add…”, “Refactor…”, “Quantify…”, “Reorder…”)\n\n- missing_skills (string[])\n  * MUST be the must-have skills for the **target role** (tools, frameworks, cloud, MLOps, data, soft skills)\n  * Prefer concise phrases”\n  * Avoid duplicates and generic items like “communication”\n\n- tailored_suggestions (string[])\n  * Role-specific recommendations, resume tailoring ideas, and portfolio additions\n").toList

/-- `RUBRIC_JD` from analyze.py, lines 100-106. -/
def RUBRIC_JD : List Char :=
  ("\nReturn JSON with keys:\n- match_score (0-100) : Overall score of the resume for this JD (skills, seniority, tooling, domain alignment)\n- skills_matched (string[]): Skills/technologies present in BOTH the resume and the JD\n- skills_missing (string[]): Important JD skills not covered (or weak) in the resume\n- suggestions_to_tailor (string[]): Concrete tailoring tips specific to this JD\n").toList

/-- The default role text embedded when the role is missing or empty. -/
def defaultRole : List Char := "general applications".toList

/-- Lines 56 and 114 of analyze.py:
`role = (role or "general applications").strip()`.  `none` models Python
`None`; the empty string is the only other falsy string, and the strip is
applied to the result of the defaulting in both branches. -/
def roleOrDefault (role : Option (List Char)) : List Char :=
  pyStrip (match role with
    | none => defaultRole
    | some r => if r = [] then defaultRole else r)

/-- One chat message, Python `{"role": ..., "content": ...}`. -/
structure Message where
  role : List Char
  content : List Char
  deriving DecidableEq, Repr

/-- `build_message_general` from analyze.py, lines 51-66. -/
def build_message_general (resume_text : List Char)
    (role : Option (List Char)) : List Message :=
  let r := roleOrDefault role
  let system :=
    ("You are an expert resume reviewer with years of experience in HR and recruitment. Be specific, concise, and actionable.").toList
  let user :=
    ("Analyze the following resume and score it on clarity, impact, skills relevance, and formatting.\nRole to target: ").toList ++
    r ++ ("\n\n").toList ++ RUBRIC_GENERAL ++
    ("\n\nResume:\n\"\"\"").toList ++ resume_text.take 20000 ++
    ("\"\"\"").toList
  [⟨("system").toList, system⟩, ⟨("user").toList, user⟩]

/-- `build_message_with_jd` from analyze.py, lines 109-132. -/
def build_message_with_jd (resume_text jd_text : List Char)
    (role : Option (List Char)) : List Message :=
  let r := roleOrDefault role
  let system :=
    ("You are a senior technical recruiter and ATS specialist. Be precise, extract concrete skills, and output valid JSON only.").toList
  let user :=
    ("Perform ATS-style matching for the target role: **").toList ++ r ++
    ("**.\nFollow the rubric strictly and output valid JSON only.\n\n").toList ++
    RUBRIC_JD ++
    ("\n\nResume:\n\"\"\"").toList ++ resume_text.take 20000 ++
    ("\"\"\"\n\nJob Description:\n\"\"\"").toList ++ jd_text.take 20000 ++
    ("\"\"\"").toList
  [⟨("system").toList, system⟩, ⟨("user").toList, user⟩]

/-! ## analyze.py — retry policy of `_call_openai` -/

/-- tenacity `wait_exponential(multiplier=1, min=1, max=8)`: the backoff
computed after the failure of attempt `n` (1-based) is
`max(min, min(multiplier * 2^(n-1), max))`. -/
def waitExponential (n : Nat) : Nat := max 1 (min (2 ^ (n - 1)) 8)

/-- tenacity `stop_after_attempt(3)`. -/
def stopAfterAttempt : Nat := 3

/-- The error tenacity raises after the final attempt fails (RetryError;
the spec names it AnalysisUnavailableError), wrapping the last failure. -/
structure AnalysisUnavailableError (E : Type) where
  lastError : E
  deriving DecidableEq

/-- The retry loop of the `@retry` decorator on `_call_openai`: run
attempt number `attempt` of `f` (which models one remote call followed by
JSON parsing; `.error` is any raised exception), and while `fuel` retries
remain recurse after a backoff.  Returns the outcome together with the
list of backoff waits performed. -/
def retryGo {E A : Type} (f : Nat → Except E A) :
    Nat → Nat → Except E A × List Nat
  | attempt, fuel =>
    match f attempt with
    | .ok a => (.ok a, [])
    | .error e =>
      match fuel with
      | 0 => (.error e, [])
      | fuel' + 1 =>
        let rest := retryGo f (attempt + 1) fuel'
        (rest.1, waitExponential attempt :: rest.2)

/-- `_call_openai` from analyze.py, lines 6-20: at most
`stop_after_attempt` total attempts; a final failure is surfaced as the
wrapped unavailability error. -/
def call_openai {E A : Type} (f : Nat → Except E A) :
    Except (AnalysisUnavailableError E) A × List Nat :=
  let r := retryGo f 1 (stopAfterAttempt - 1)
  (match r.1 with
   | .ok a => .ok a
   | .error e => .error ⟨e⟩, r.2)

/-! ## analyze.py — response normalization -/

/-- JSON-ish values of a parsed LLM response.  `strList` is an array whose
elements are all strings; `other` stands for any other JSON shape (nested
objects, floats, non-string or mixed arrays).  No claim inspects the
shapes collected in `other`; they neither convert to `int` nor count as
the string lists the normalizers keep. -/
inductive JVal where
  | num (n : Int)
  | str (s : List Char)
  | bool (b : Bool)
  | null
  | strList (elems : List (List Char))
  | other
  deriving DecidableEq, Repr

/-- A parsed JSON object (Python dict with unique keys). -/
abbrev JDict := List (String × JVal)

/-- Python `d.get(k)` / `d[k]` lookup. -/
def dictGet (d : JDict) (k : String) : Option JVal :=
  (d.find? fun kv => kv.1 == k).map (·.2)

/-- Python `d[k] = v`: replace in place, or append a new key. -/
def dictSet : JDict → String → JVal → JDict
  | [], k, v => [(k, v)]
  | (k', v') :: rest, k, v =>
    if k' == k then (k, v) :: rest else (k', v') :: dictSet rest k v

/-- Python `d.get(k, dflt)`. -/
def dictGetD (d : JDict) (k : String) (dflt : JVal) : JVal :=
  (dictGet d k).getD dflt

/-- Numeric value of an all-digit string. -/
def digitsVal (ds : List Char) : Nat :=
  ds.foldl (fun a c => a * 10 + (c.toNat - 48)) 0

/-- Value of a nonempty all-ASCII-digit string, else `none`. -/
def digitsVal? (ds : List Char) : Option Nat :=
  if ds ≠ [] ∧ ds.all Char.isDigit = true then some (digitsVal ds) else none

/-- Python `int(s)` on a string: surrounding whitespace is ignored, then an
optional sign and a nonempty digit run (ASCII digits; underscore
separators and non-ASCII digits are not modelled).  `none` models a raised
ValueError. -/
def pyIntOfStr (s : List Char) : Option Int :=
  match pyStrip s with
  | '+' :: ds => (digitsVal? ds).map fun n => (n : Int)
  | '-' :: ds => (digitsVal? ds).map fun n => -(n : Int)
  | ds => (digitsVal? ds).map fun n => (n : Int)

/-- Python `int(x)` on a JSON value (`int(True) = 1`, `int(False) = 0`);
`none` models a raised exception. -/
def pyInt : JVal → Option Int
  | .num n => some n
  | .str s => pyIntOfStr s
  | .bool b => some (if b then 1 else 0)
  | _ => none

/-- Python `isinstance(v, list)` on the modelled shapes. -/
def isJList : JVal → Bool
  | .strList _ => true
  | _ => false

/-- Lines 84-86 and 149-151 of analyze.py: a list-valued field is kept
when present and a list, and replaced by `[]` otherwise. -/
def normalizeListKey (d : JDict) (k : String) : JDict :=
  match dictGet d k with
  | some v => if isJList v then d else dictSet d k (.strList [])
  | none => dictSet d k (.strList [])

/-- The list-valued keys of the JD-aware result. -/
def jdListKeys : List String :=
  ["skills_matched", "skills_missing", "suggestions_to_tailor"]

/-- The defensive normalization of `analyze_with_jd`, analyze.py lines
142-153: coerce and clamp `match_score`, default the list keys. -/
def analyze_with_jd_norm (data : JDict) : JDict :=
  let score : Int :=
    match dictGet data "match_score" with
    | some v => (pyInt v).getD 0
    | none => 0
  let d1 := dictSet data "match_score" (.num (max 0 (min 100 score)))
  jdListKeys.foldl normalizeListKey d1

/-- Line 81 of analyze.py:
`int(raw_score) if str(raw_score).isdigit() else 0`.  `str()` of an
integer is all digits exactly when the integer is nonnegative; for a
string the digit test applies directly; `str()` of any other shape is
never all digits. -/
def pyOverallScore : JVal → Int
  | .num n => if 0 ≤ n then n else 0
  | .str s =>
    match digitsVal? s with
    | some n => (n : Int)
    | none => 0
  | _ => 0

/-- Join with a single space (Python `" ".join`). -/
def joinSp (parts : List (List Char)) : List Char := List.intercalate [' '] parts

/-- Python `repr` of a string as it appears inside the rendering of a
list (quoting only; escaping is not modelled). -/
def pyReprStr (s : List Char) : List Char := apoChar :: s ++ [apoChar]

/-- Python `str(x)` / f-string rendering of a JSON value.  The rendering
of `other` is not determined by the model (a fixed placeholder); no claim
inspects it. -/
def pyStrOf : JVal → List Char
  | .num n => (toString n).toList
  | .str s => s
  | .bool b => if b then ("True").toList else ("False").toList
  | .null => ("None").toList
  | .strList xs =>
    ('[' :: List.intercalate (", ").toList (xs.map pyReprStr)) ++ [']']
  | .other => ("<value>").toList

/-- Lines 88-94 of analyze.py: coerce the `summary` value to a plain
string (join a list of strings on single spaces, keeping only elements
that are nonempty after stripping; `str()`-convert other shapes), then
strip it. -/
def summaryNorm : Option JVal → List Char
  | some (.str s) => pyStrip s
  | some (.strList xs) =>
    pyStrip (joinSp ((xs.map pyStrip).filter fun x => x ≠ []))
  | some v => pyStrip (pyStrOf v)
  | none => []

/-- The list-valued keys of the general result. -/
def generalListKeys : List String :=
  ["strengths", "issues", "action_items", "missing_skills", "tailored_suggestions"]

/-- The defensive normalization of `analyze_resume`, analyze.py lines
78-96: coerce `overall_score`, default the list keys, coerce `summary`. -/
def analyze_resume_norm (data : JDict) : JDict :=
  let d1 := dictSet data "overall_score"
    (.num (pyOverallScore (dictGetD data "overall_score" (.num 0))))
  let d2 := generalListKeys.foldl normalizeListKey d1
  dictSet d2 "summary" (.str (summaryNorm (dictGet d2 "summary")))

/-- `analyze_resume` from analyze.py, lines 69-96, with the remote call
abstracted by `llm` (request messages to parsed JSON response). -/
def analyze_resume (llm : List Message → JDict) (resume_text : List Char)
    (role : Option (List Char)) : JDict :=
  analyze_resume_norm (llm (build_message_general resume_text role))

/-- `analyze_with_jd` from analyze.py, lines 134-153, with the remote
call abstracted by `llm`. -/
def analyze_with_jd (llm : List Message → JDict)
    (resume_text jd_text : List Char) (role : Option (List Char)) : JDict :=
  analyze_with_jd_norm (llm (build_message_with_jd resume_text jd_text role))

/-! ## main.py — downloadable report -/

/-- One bullet line per element of a list-valued field
(`f"- {s}"`).  The analyze normalizers guarantee these fields are string
lists, the only case the report flow exercises. -/
def bulletLines : JVal → List (List Char)
  | .strList xs => xs.map fun s => ("- ").toList ++ s
  | _ => []

/-- The Executive Summary section body of the report: line 66 of main.py
reads `review.get('executive_summary', '')` and renders it. -/
def execSummaryBody (review : JDict) : List Char :=
  pyStrOf (dictGetD review "executive_summary" (.str []))

/-- `_make_review_md` from main.py, lines 61-77: the Markdown lines,
joined by newlines, stripped, with a final newline appended. -/
def make_review_md (review : JDict) : List Char :=
  let md : List (List Char) :=
    [("# Resume Review\n").toList,
     ("**Overall score:** ").toList ++
       pyStrOf (dictGetD review "overall_score" (.num 0)) ++ ("\n").toList,
     ("## Executive Summary\n").toList ++ execSummaryBody review ++
       ("\n").toList,
     ("## Strengths").toList] ++
    bulletLines (dictGetD review "strengths" (.strList [])) ++
    [("\n## Issues").toList] ++
    bulletLines (dictGetD review "issues" (.strList [])) ++
    [("\n## Action Items").toList] ++
    bulletLines (dictGetD review "action_items" (.strList [])) ++
    [("\n## Missing Skills (general/role-aware)").toList] ++
    bulletLines (dictGetD review "missing_skills" (.strList [])) ++
    [("\n## Role-specific Tips").toList] ++
    bulletLines (dictGetD review "tailored_suggestions" (.strList []))
  pyStrip (joinNl md) ++ ['\n']

/-! ## Equation lemmas for the normalizer stages -/

theorem collapseSpTab_nil (b : Bool) : collapseSpTab b [] = [] := rfl

theorem collapseSpTab_cons_sp_false {a : Char} (rest : List Char)
    (ha : isSpTab a = true) :
    collapseSpTab false (a :: rest) = ' ' :: collapseSpTab true rest := by
  simp [collapseSpTab, ha]

theorem collapseSpTab_cons_sp_true {a : Char} (rest : List Char)
    (ha : isSpTab a = true) :
    collapseSpTab true (a :: rest) = collapseSpTab true rest := by
  simp [collapseSpTab, ha]

theorem collapseSpTab_cons_notSp {a : Char} (rest : List Char) (b : Bool)
    (ha : isSpTab a = false) :
    collapseSpTab b (a :: rest) = a :: collapseSpTab false rest := by
  simp [collapseSpTab, ha]

theorem collapseNl_nil (k : Nat) : collapseNl k [] = [] := rfl

theorem collapseNl_cons_nl_ge {k : Nat} (rest : List Char) (hk : 2 ≤ k) :
    collapseNl k ('\n' :: rest) = collapseNl k rest := by
  simp [collapseNl, hk]

theorem collapseNl_cons_nl_lt {k : Nat} (rest : List Char) (hk : k < 2) :
    collapseNl k ('\n' :: rest) = '\n' :: collapseNl (k + 1) rest := by
  have : ¬ 2 ≤ k := by omega
  simp [collapseNl, this]

theorem collapseNl_cons_other {a : Char} (rest : List Char) (k : Nat)
    (ha : ¬ a = '\n') :
    collapseNl k (a :: rest) = a :: collapseNl 0 rest := by
  simp [collapseNl, ha]

theorem rstripRec_cons_nil_ws {a : Char} {rest : List Char}
    (h0 : rstripRec rest = []) (hw : isPyWs a = true) :
    rstripRec (a :: rest) = [] := by
  simp [rstripRec, h0, hw]

theorem rstripRec_cons_nil_notWs {a : Char} {rest : List Char}
    (h0 : rstripRec rest = []) (hw : isPyWs a = false) :
    rstripRec (a :: rest) = [a] := by
  simp [rstripRec, h0, hw]

theorem rstripRec_cons_ne {a : Char} {rest : List Char}
    (h0 : rstripRec rest ≠ []) :
    rstripRec (a :: rest) = a :: rstripRec rest := by
  simp [rstripRec, h0]

/-! ## Character-membership lemmas for the normalizer stages -/

theorem mem_collapseSpTab {c : Char} (l : List Char) :
    ∀ b, c ∈ collapseSpTab b l → c ∈ l ∨ c = ' ' := by
  induction l with
  | nil => intro b h; simp [collapseSpTab] at h
  | cons a rest ih =>
    intro b h
    by_cases ha : isSpTab a = true
    · cases b with
      | true =>
        rw [collapseSpTab_cons_sp_true rest ha] at h
        rcases ih true h with h' | h'
        · exact .inl (List.mem_cons_of_mem _ h')
        · exact .inr h'
      | false =>
        rw [collapseSpTab_cons_sp_false rest ha, List.mem_cons] at h
        rcases h with h | h
        · exact .inr h
        · rcases ih true h with h' | h'
          · exact .inl (List.mem_cons_of_mem _ h')
          · exact .inr h'
    · rw [collapseSpTab_cons_notSp rest b (by simpa using ha), List.mem_cons] at h
      rcases h with h | h
      · exact .inl (by simp [h])
      · rcases ih false h with h' | h'
        · exact .inl (List.mem_cons_of_mem _ h')
        · exact .inr h'

theorem mem_collapseNl {c : Char} (l : List Char) :
    ∀ k, c ∈ collapseNl k l → c ∈ l := by
  induction l with
  | nil => intro k h; simp [collapseNl] at h
  | cons a rest ih =>
    intro k h
    by_cases hnl : a = '\n'
    · subst hnl
      by_cases hk : 2 ≤ k
      · rw [collapseNl_cons_nl_ge rest hk] at h
        exact List.mem_cons_of_mem _ (ih k h)
      · rw [collapseNl_cons_nl_lt rest (by omega), List.mem_cons] at h
        rcases h with h | h
        · simp [h]
        · exact List.mem_cons_of_mem _ (ih (k + 1) h)
    · rw [collapseNl_cons_other rest k hnl, List.mem_cons] at h
      rcases h with h | h
      · simp [h]
      · exact List.mem_cons_of_mem _ (ih 0 h)

theorem rstripRec_front (l : List Char) : ∃ t, l = rstripRec l ++ t := by
  induction l with
  | nil => exact ⟨[], rfl⟩
  | cons a rest ih =>
    obtain ⟨t, ht⟩ := ih
    by_cases h0 : rstripRec rest = []
    · by_cases hw : isPyWs a = true
      · exact ⟨a :: rest, by simp [rstripRec, h0, hw]⟩
      · refine ⟨t, ?_⟩
        simp only [rstripRec, h0, hw, if_true, if_false]
        rw [h0] at ht
        simpa using ht
    · refine ⟨t, ?_⟩
      simp only [rstripRec, h0, if_false]
      rw [List.cons_append]
      exact congrArg (a :: ·) ht

theorem mem_rstripRec {c : Char} (l : List Char) (h : c ∈ rstripRec l) : c ∈ l := by
  obtain ⟨t, ht⟩ := rstripRec_front l
  rw [ht]
  exact List.mem_append_left _ h

theorem mem_pyStrip {c : Char} (l : List Char) (h : c ∈ pyStrip l) : c ∈ l :=
  (List.dropWhile_sublist isPyWs).mem (mem_rstripRec _ h)

theorem nbsp_not_mem_replaceNbsp (l : List Char) : nbspChar ∉ replaceNbsp l := by
  intro h
  simp only [replaceNbsp, List.mem_map] at h
  obtain ⟨a, _, ha⟩ := h
  by_cases h' : a = nbspChar
  · rw [if_pos h'] at ha
    exact absurd ha.symm (by decide)
  · rw [if_neg h'] at ha
    exact h' ha

theorem nbsp_not_mem_clean (l : List Char) : nbspChar ∉ clean_text l := by
  intro h
  have h1 := mem_pyStrip _ h
  have h2 := mem_collapseNl _ 0 h1
  rcases mem_collapseSpTab _ false h2 with h3 | h3
  · exact nbsp_not_mem_replaceNbsp l h3
  · exact absurd h3 (by decide)

theorem tab_not_mem_collapseSpTab (l : List Char) :
    ∀ b, '\t' ∉ collapseSpTab b l := by
  induction l with
  | nil => intro b h; simp [collapseSpTab] at h
  | cons a rest ih =>
    intro b h
    by_cases ha : isSpTab a = true
    · cases b with
      | true =>
        rw [collapseSpTab_cons_sp_true rest ha] at h
        exact ih true h
      | false =>
        rw [collapseSpTab_cons_sp_false rest ha, List.mem_cons] at h
        rcases h with h | h
        · exact absurd h (by decide)
        · exact ih true h
    · rw [collapseSpTab_cons_notSp rest b (by simpa using ha), List.mem_cons] at h
      rcases h with h | h
      · rw [← h] at ha
        exact ha (by decide)
      · exact ih false h

theorem tab_not_mem_clean (l : List Char) : '\t' ∉ clean_text l := by
  intro h
  have h1 := mem_pyStrip _ h
  have h2 := mem_collapseNl _ 0 h1
  exact tab_not_mem_collapseSpTab _ false h2

/-! ## Space/tab-run invariant of `collapseSpTab` -/

theorem noAdjSpTab_tail {a : Char} {l : List Char}
    (h : noAdjSpTab (a :: l) = true) : noAdjSpTab l = true := by
  cases l with
  | nil => rfl
  | cons b t =>
    simp only [noAdjSpTab, Bool.and_eq_true] at h
    exact h.2

theorem noAdjSpTab_cons_notSp {a : Char} {l : List Char}
    (ha : isSpTab a = false) (h : noAdjSpTab l = true) :
    noAdjSpTab (a :: l) = true := by
  cases l with
  | nil => rfl
  | cons b t => simp [noAdjSpTab, ha, h]

theorem noAdjSpTab_cons_of_head {a : Char} {l : List Char}
    (hhead : ∀ b t, l = b :: t → (isSpTab a && isSpTab b) = false)
    (h : noAdjSpTab l = true) : noAdjSpTab (a :: l) = true := by
  cases l with
  | nil => rfl
  | cons b t => simp [noAdjSpTab, hhead b t rfl, h]

theorem collapseSpTab_true_head {l : List Char} {c : Char} {t : List Char}
    (h : collapseSpTab true l = c :: t) : isSpTab c = false := by
  induction l generalizing t with
  | nil => simp [collapseSpTab] at h
  | cons a rest ih =>
    by_cases ha : isSpTab a = true
    · rw [collapseSpTab_cons_sp_true rest ha] at h
      exact ih h
    · rw [collapseSpTab_cons_notSp rest true (by simpa using ha)] at h
      cases h
      simpa using ha

theorem collapseNl_zero_head {l : List Char} {c : Char} {t : List Char}
    (h : collapseNl 0 l = c :: t) (hc : isSpTab c = true) :
    ∃ t', l = c :: t' := by
  cases l with
  | nil => simp [collapseNl] at h
  | cons a rest =>
    by_cases hnl : a = '\n'
    · subst hnl
      rw [collapseNl_cons_nl_lt rest (by omega)] at h
      cases h
      exact absurd hc (by decide)
    · rw [collapseNl_cons_other rest 0 hnl] at h
      cases h
      exact ⟨rest, rfl⟩

theorem noAdjSpTab_collapseSpTab (l : List Char) :
    ∀ b, noAdjSpTab (collapseSpTab b l) = true := by
  induction l with
  | nil => intro b; rfl
  | cons a rest ih =>
    intro b
    by_cases ha : isSpTab a = true
    · cases b with
      | true => rw [collapseSpTab_cons_sp_true rest ha]; exact ih true
      | false =>
        rw [collapseSpTab_cons_sp_false rest ha]
        refine noAdjSpTab_cons_of_head ?_ (ih true)
        intro c t ht
        have := collapseSpTab_true_head ht
        simp [this]
    · rw [collapseSpTab_cons_notSp rest b (by simpa using ha)]
      refine noAdjSpTab_cons_notSp (by simpa using ha) (ih false)

theorem collapseSpTab_eq_self (l : List Char) : '\t' ∉ l → noAdjSpTab l = true →
    collapseSpTab false l = l ∧
      (∀ c t, l = c :: t → isSpTab c = false → collapseSpTab true l = l) := by
  induction l with
  | nil =>
    intro _ _
    exact ⟨rfl, fun c t h => by cases h⟩
  | cons a rest ih =>
    intro htab hadj
    have htab' : '\t' ∉ rest := fun h => htab (List.mem_cons_of_mem _ h)
    obtain ⟨ihf, iht⟩ := ih htab' (noAdjSpTab_tail hadj)
    by_cases ha : isSpTab a = true
    · have ha' : a = ' ' := by
        have hne : ¬ a = '\t' := fun h => htab (by simp [h])
        revert ha
        simp only [isSpTab, Bool.or_eq_true, beq_iff_eq]
        intro h
        rcases h with h | h
        · exact h
        · exact absurd h hne
      have hrest : collapseSpTab true rest = rest := by
        cases rest with
        | nil => rfl
        | cons b t =>
          have hb : isSpTab b = false := by
            have hpair := hadj
            simp only [noAdjSpTab, Bool.and_eq_true, Bool.not_eq_true',
              Bool.and_eq_false_iff] at hpair
            rcases hpair.1 with h | h
            · rw [h] at ha; cases ha
            · exact h
          exact iht b t rfl hb
      refine ⟨?_, ?_⟩
      · rw [collapseSpTab_cons_sp_false rest ha, hrest, ha']
      · intro c t hct hc
        cases hct
        rw [hc] at ha
        cases ha
    · have ha' : isSpTab a = false := by simpa using ha
      refine ⟨?_, ?_⟩
      · rw [collapseSpTab_cons_notSp rest false ha', ihf]
      · intro c t hct hc
        rw [collapseSpTab_cons_notSp rest true ha', ihf]

/-! ## Newline-run invariant of `collapseNl` -/

theorem noTripleNl_tail {a : Char} {l : List Char}
    (h : noTripleNl (a :: l) = true) : noTripleNl l = true := by
  cases l with
  | nil => rfl
  | cons b t =>
    cases t with
    | nil => rfl
    | cons c t' =>
      simp only [noTripleNl, Bool.and_eq_true] at h
      exact h.2

theorem leadNl_nil : leadNl [] = 0 := rfl

theorem leadNl_cons_nl (l : List Char) : leadNl ('\n' :: l) = 1 + leadNl l := by
  simp [leadNl, List.takeWhile_cons]
  omega

theorem leadNl_cons_other {a : Char} (l : List Char) (ha : ¬ a = '\n') :
    leadNl (a :: l) = 0 := by
  simp [leadNl, List.takeWhile_cons, ha]

theorem noTripleNl_cons_notNl {a : Char} {l : List Char}
    (ha : ¬ a = '\n') (h : noTripleNl l = true) : noTripleNl (a :: l) = true := by
  cases l with
  | nil => rfl
  | cons b t =>
    cases t with
    | nil => rfl
    | cons c t' =>
      simp only [noTripleNl, Bool.and_eq_true]
      refine ⟨?_, h⟩
      simp [ha]

theorem noTripleNl_cons_nl {l : List Char}
    (h : noTripleNl l = true) (hlead : leadNl l ≤ 1) :
    noTripleNl ('\n' :: l) = true := by
  cases l with
  | nil => rfl
  | cons b t =>
    cases t with
    | nil => rfl
    | cons c t' =>
      simp only [noTripleNl, Bool.and_eq_true]
      refine ⟨?_, h⟩
      by_cases hb : b = '\n'
      · subst hb
        rw [leadNl_cons_nl] at hlead
        have hc : ¬ c = '\n' := by
          intro hc
          subst hc
          rw [leadNl_cons_nl] at hlead
          omega
        simp [hc]
      · simp [hb]

theorem noTripleNl_collapseNl (l : List Char) :
    ∀ k, noTripleNl (collapseNl k l) = true ∧
      leadNl (collapseNl k l) + min k 2 ≤ 2 := by
  induction l with
  | nil =>
    intro k
    refine ⟨rfl, ?_⟩
    simp [collapseNl, leadNl]
  | cons a rest ih =>
    intro k
    by_cases hnl : a = '\n'
    · subst hnl
      by_cases hk : 2 ≤ k
      · rw [collapseNl_cons_nl_ge rest hk]
        exact ih k
      · rw [collapseNl_cons_nl_lt rest (by omega)]
        obtain ⟨ih1, ih2⟩ := ih (k + 1)
        have hmin : min (k + 1) 2 = k + 1 := by omega
        rw [hmin] at ih2
        refine ⟨noTripleNl_cons_nl ih1 (by omega), ?_⟩
        rw [leadNl_cons_nl]
        have hmin' : min k 2 = k := by omega
        rw [hmin']
        omega
    · rw [collapseNl_cons_other rest k hnl]
      obtain ⟨ih1, _⟩ := ih 0
      refine ⟨noTripleNl_cons_notNl hnl ih1, ?_⟩
      rw [leadNl_cons_other _ hnl]
      omega

theorem noTripleNl_drop_replicate {l : List Char} :
    ∀ k, noTripleNl (List.replicate k '\n' ++ l) = true → noTripleNl l = true := by
  intro k
  induction k with
  | zero => simp
  | succ n ih =>
    intro h
    rw [List.replicate_succ, List.cons_append] at h
    exact ih (noTripleNl_tail h)

theorem collapseNl_eq_self (l : List Char) :
    ∀ k, k ≤ 2 → noTripleNl (List.replicate k '\n' ++ l) = true →
      collapseNl k l = l := by
  induction l with
  | nil => intro k _ _; rfl
  | cons a rest ih =>
    intro k hk h
    by_cases hnl : a = '\n'
    · subst hnl
      by_cases hk2 : k = 2
      · subst hk2
        exact absurd h (by simp [List.replicate, noTripleNl])
      · rw [collapseNl_cons_nl_lt rest (by omega)]
        have h' : noTripleNl (List.replicate (k + 1) '\n' ++ rest) = true := by
          rw [List.replicate_succ', List.append_assoc, List.singleton_append]
          exact h
        rw [ih (k + 1) (by omega) h']
    · rw [collapseNl_cons_other rest k hnl]
      have h1 : noTripleNl (a :: rest) = true := noTripleNl_drop_replicate k h
      rw [ih 0 (by omega) (by simpa using noTripleNl_tail h1)]

/-! ## Preservation of the run invariants by the later stages -/

theorem noAdjSpTab_collapseNl (l : List Char) :
    ∀ k, noAdjSpTab l = true → noAdjSpTab (collapseNl k l) = true := by
  induction l with
  | nil => intro k _; rfl
  | cons a rest ih =>
    intro k h
    have h' := noAdjSpTab_tail h
    by_cases hnl : a = '\n'
    · subst hnl
      by_cases hk : 2 ≤ k
      · rw [collapseNl_cons_nl_ge rest hk]
        exact ih k h'
      · rw [collapseNl_cons_nl_lt rest (by omega)]
        exact noAdjSpTab_cons_notSp (by decide) (ih (k + 1) h')
    · rw [collapseNl_cons_other rest k hnl]
      refine noAdjSpTab_cons_of_head ?_ (ih 0 h')
      intro b t hbt
      by_cases hsa : isSpTab a = true
      · by_cases hsb : isSpTab b = true
        · obtain ⟨t', ht'⟩ := collapseNl_zero_head hbt hsb
          rw [ht'] at h
          simp [noAdjSpTab, hsa, hsb] at h
        · simp [hsb]
      · simp [hsa]

theorem noAdjSpTab_dropWhile (p : Char → Bool) (l : List Char)
    (h : noAdjSpTab l = true) : noAdjSpTab (l.dropWhile p) = true := by
  induction l with
  | nil => simpa using h
  | cons a rest ih =>
    rw [List.dropWhile_cons]
    by_cases hp : p a = true
    · rw [if_pos hp]
      exact ih (noAdjSpTab_tail h)
    · rw [if_neg hp]
      exact h

theorem noTripleNl_dropWhile (p : Char → Bool) (l : List Char)
    (h : noTripleNl l = true) : noTripleNl (l.dropWhile p) = true := by
  induction l with
  | nil => simpa using h
  | cons a rest ih =>
    rw [List.dropWhile_cons]
    by_cases hp : p a = true
    · rw [if_pos hp]
      exact ih (noTripleNl_tail h)
    · rw [if_neg hp]
      exact h

theorem noAdjSpTab_front (x : List Char) :
    ∀ t, noAdjSpTab (x ++ t) = true → noAdjSpTab x = true := by
  induction x with
  | nil => intro t _; rfl
  | cons a x' ih =>
    intro t h
    cases x' with
    | nil => rfl
    | cons b x'' =>
      rw [List.cons_append, List.cons_append] at h
      simp only [noAdjSpTab, Bool.and_eq_true] at h ⊢
      refine ⟨h.1, ih t ?_⟩
      rw [List.cons_append]
      exact h.2

theorem noTripleNl_front (x : List Char) :
    ∀ t, noTripleNl (x ++ t) = true → noTripleNl x = true := by
  induction x with
  | nil => intro t _; rfl
  | cons a x' ih =>
    intro t h
    cases x' with
    | nil => rfl
    | cons b x'' =>
      cases x'' with
      | nil => rfl
      | cons c x3 =>
        simp only [List.cons_append] at h
        simp only [noTripleNl, Bool.and_eq_true] at h ⊢
        refine ⟨h.1, ih t ?_⟩
        simp only [List.cons_append]
        exact h.2

theorem noAdjSpTab_rstripRec {l : List Char} (h : noAdjSpTab l = true) :
    noAdjSpTab (rstripRec l) = true := by
  obtain ⟨t, ht⟩ := rstripRec_front l
  rw [ht] at h
  exact noAdjSpTab_front _ t h

theorem noTripleNl_rstripRec {l : List Char} (h : noTripleNl l = true) :
    noTripleNl (rstripRec l) = true := by
  obtain ⟨t, ht⟩ := rstripRec_front l
  rw [ht] at h
  exact noTripleNl_front _ t h

/-! ## The strip stage is a projection -/

theorem dropWhile_head_false {p : Char → Bool} {l : List Char} {c : Char}
    {t : List Char} (h : l.dropWhile p = c :: t) : p c = false := by
  induction l with
  | nil => simp at h
  | cons a rest ih =>
    rw [List.dropWhile_cons] at h
    by_cases hp : p a = true
    · rw [if_pos hp] at h
      exact ih h
    · rw [if_neg hp] at h
      cases h
      simpa using hp

theorem dropWhile_eq_self_of_head {p : Char → Bool} {l : List Char}
    (h : ∀ c t, l = c :: t → p c = false) : l.dropWhile p = l := by
  cases l with
  | nil => rfl
  | cons a rest =>
    rw [List.dropWhile_cons, h a rest rfl]
    simp

theorem rstripRec_head {l : List Char} {c : Char} {t : List Char}
    (h : rstripRec l = c :: t) : ∃ t', l = c :: t' := by
  obtain ⟨u, hu⟩ := rstripRec_front l
  rw [h] at hu
  exact ⟨t ++ u, by simpa using hu⟩

theorem rstripRec_idem (l : List Char) : rstripRec (rstripRec l) = rstripRec l := by
  induction l with
  | nil => rfl
  | cons a rest ih =>
    by_cases h0 : rstripRec rest = []
    · by_cases hw : isPyWs a = true
      · rw [rstripRec_cons_nil_ws h0 hw]
        rfl
      · have hw' : isPyWs a = false := by simpa using hw
        rw [rstripRec_cons_nil_notWs h0 hw']
        exact rstripRec_cons_nil_notWs rfl hw'
    · rw [rstripRec_cons_ne h0]
      have hne : rstripRec (rstripRec rest) ≠ [] := by
        rw [ih]
        exact h0
      rw [rstripRec_cons_ne hne, ih]

theorem pyStrip_idem (l : List Char) : pyStrip (pyStrip l) = pyStrip l := by
  show rstripRec ((rstripRec (l.dropWhile isPyWs)).dropWhile isPyWs) =
    rstripRec (l.dropWhile isPyWs)
  have hdrop : (rstripRec (l.dropWhile isPyWs)).dropWhile isPyWs =
      rstripRec (l.dropWhile isPyWs) := by
    apply dropWhile_eq_self_of_head
    intro c t hct
    obtain ⟨t', ht'⟩ := rstripRec_head hct
    exact dropWhile_head_false ht'
  rw [hdrop, rstripRec_idem]

/-! ## Normalizer theorems (claims C2, C3) -/

theorem replaceNbsp_eq_self {l : List Char} (h : nbspChar ∉ l) :
    replaceNbsp l = l := by
  induction l with
  | nil => rfl
  | cons a rest ih =>
    have ha : ¬ a = nbspChar := fun h' => h (by simp [h'])
    have ih' := ih fun h' => h (List.mem_cons_of_mem _ h')
    simp only [replaceNbsp, List.map_cons, if_neg ha]
    simp only [replaceNbsp] at ih'
    rw [ih']

theorem noAdjSpTab_clean (l : List Char) : noAdjSpTab (clean_text l) = true := by
  apply noAdjSpTab_rstripRec
  apply noAdjSpTab_dropWhile
  apply noAdjSpTab_collapseNl
  exact noAdjSpTab_collapseSpTab _ false

theorem noTripleNl_clean (l : List Char) : noTripleNl (clean_text l) = true := by
  apply noTripleNl_rstripRec
  apply noTripleNl_dropWhile
  exact (noTripleNl_collapseNl _ 0).1

/-- Claim C3: for every input, the output of `_clean_text` contains no
non-breaking space, no run of three or more consecutive newlines, and no
run of two or more consecutive space/tab characters. -/
theorem clean_text_invariants (l : List Char) :
    nbspChar ∉ clean_text l ∧ noTripleNl (clean_text l) = true ∧
      noAdjSpTab (clean_text l) = true :=
  ⟨nbsp_not_mem_clean l, noTripleNl_clean l, noAdjSpTab_clean l⟩

/-- Claim C2: `_clean_text` is idempotent: applying it twice gives the same
result as applying it once, for every input string. -/
theorem clean_text_idem (l : List Char) :
    clean_text (clean_text l) = clean_text l := by
  have hnb : replaceNbsp (clean_text l) = clean_text l :=
    replaceNbsp_eq_self (nbsp_not_mem_clean l)
  have hsp : collapseSpTab false (clean_text l) = clean_text l :=
    (collapseSpTab_eq_self _ (tab_not_mem_clean l) (noAdjSpTab_clean l)).1
  have hnl : collapseNl 0 (clean_text l) = clean_text l :=
    collapseNl_eq_self _ 0 (by omega) (by simpa using noTripleNl_clean l)
  have hstrip : pyStrip (clean_text l) = clean_text l :=
    pyStrip_idem (collapseNl 0 (collapseSpTab false (replaceNbsp l)))
  show pyStrip (collapseNl 0 (collapseSpTab false (replaceNbsp (clean_text l)))) =
    clean_text l
  rw [hnb, hsp, hnl, hstrip]

/-! ## Theorems for the extraction entry point (claims C4, C7, C8) -/

/-- Claim C7: for every byte blob of length 0, `extract_text_from_file`
fails with `EmptyInputError`, whatever the declared format (including an
unsupported one) and whatever the format extractors would do. -/
theorem extract_empty_input (tag : FormatTag)
    (pdfPrimary : List Nat → Except Unit (List Char))
    (pdfFallback : List Nat → Except Unit (List (Option (List Char))))
    (docxExtract : List Nat → Except Unit (List Char))
    (decodeUtf8 : List Nat → List Char) :
    extract_text_from_file [] tag pdfPrimary pdfFallback docxExtract decodeUtf8 =
      .error .emptyInput := rfl

/-- Claim C8: a blob strictly larger than 8 MiB is rejected with
`TooLargeError` regardless of its content, its declared format and the
behaviour of every format extractor (so no format-specific parsing is ever
consulted), while a blob of exactly 8 MiB is never rejected by this
check. -/
theorem extract_too_large (raw : List Nat) (tag : FormatTag)
    (pdfPrimary : List Nat → Except Unit (List Char))
    (pdfFallback : List Nat → Except Unit (List (Option (List Char))))
    (docxExtract : List Nat → Except Unit (List Char))
    (decodeUtf8 : List Nat → List Char) :
    (MAX_BYTES < raw.length →
      extract_text_from_file raw tag pdfPrimary pdfFallback docxExtract decodeUtf8 =
        .error .tooLarge) ∧
    (raw.length = MAX_BYTES →
      extract_text_from_file raw tag pdfPrimary pdfFallback docxExtract decodeUtf8 ≠
        .error .tooLarge) := by
  constructor
  · intro hlt
    have hne : ¬ raw.length = 0 := by omega
    simp [extract_text_from_file, hne, hlt]
  · intro heq
    have hne : ¬ raw.length = 0 := by rw [heq]; simp [MAX_BYTES]
    have hnlt : ¬ MAX_BYTES < raw.length := by omega
    simp only [extract_text_from_file, hne, if_false, hnlt, if_true, if_neg, ite_false]
    cases tag with
    | pdf =>
      cases extract_pdf (pdfPrimary raw) (pdfFallback raw) <;> simp
    | docx =>
      cases docxExtract raw <;> simp
    | plainText => simp
    | unsupported => simp

/-- Witness for `extract_too_large` at a concrete 8 MiB + 1 blob and a
concrete 8 MiB blob. -/
theorem extract_too_large_witness :
    extract_text_from_file (List.replicate (MAX_BYTES + 1) 0) .pdf
        (fun _ => .error ()) (fun _ => .error ()) (fun _ => .error ())
        (fun _ => []) = .error .tooLarge ∧
    extract_text_from_file (List.replicate MAX_BYTES 0) .pdf
        (fun _ => .error ()) (fun _ => .error ()) (fun _ => .error ())
        (fun _ => []) ≠ .error .tooLarge := by
  constructor
  · exact (extract_too_large (List.replicate (MAX_BYTES + 1) 0) .pdf _ _ _ _).1
      (by simp)
  · exact (extract_too_large (List.replicate MAX_BYTES 0) .pdf _ _ _ _).2
      (by simp)

/-- Claim C4: the secondary page-by-page extractor is consulted exactly
when the primary extractor raises; in the secondary path every page that
yields nothing contributes the empty string; and PDF extraction fails only
when both tiers fail. -/
theorem extract_pdf_two_tier (primary : Except Unit (List Char))
    (fallbackPages : Except Unit (List (Option (List Char)))) :
    (∀ t, primary = .ok t → extract_pdf primary fallbackPages = .ok t) ∧
    (∀ e pages, primary = .error e → fallbackPages = .ok pages →
      extract_pdf primary fallbackPages =
        .ok (joinNl (pages.map fun p => p.getD []))) ∧
    ((∃ e, extract_pdf primary fallbackPages = .error e) ↔
      (∃ e, primary = .error e) ∧ (∃ e, fallbackPages = .error e)) := by
  refine ⟨?_, ?_, ?_⟩
  · intro t ht; simp [extract_pdf, ht]
  · intro e pages hp hf; simp [extract_pdf, hp, hf]
  · cases primary with
    | ok t => simp [extract_pdf]
    | error e =>
      cases fallbackPages with
      | ok pages => simp [extract_pdf]
      | error e' => simp [extract_pdf]

/-- Witness for `extract_pdf_two_tier`: a failing primary tier together
with a fallback whose middle page yields nothing produces the join of the
page texts with that page read as the empty string. -/
theorem extract_pdf_two_tier_witness :
    extract_pdf (.error ()) (.ok [some ['a'], none, some ['b']]) =
      .ok ['a', '\n', '\n', 'b'] := by
  have h := (extract_pdf_two_tier (.error ())
    (.ok [some ['a'], none, some ['b']])).2.1 () [some ['a'], none, some ['b']]
    rfl rfl
  rw [h]; rfl

/-! ## Dictionary lemmas -/

theorem dictGet_dictSet_same (d : JDict) (k : String) (v : JVal) :
    dictGet (dictSet d k v) k = some v := by
  induction d with
  | nil => simp [dictSet, dictGet, List.find?]
  | cons kv rest ih =>
    obtain ⟨k', v'⟩ := kv
    by_cases h : k' = k
    · subst h
      simp [dictSet, dictGet, List.find?]
    · have hb : (k' == k) = false := by simpa using h
      simp only [dictSet, hb, Bool.false_eq_true, if_false]
      simp only [dictGet, List.find?, hb] at ih ⊢
      exact ih

theorem dictGet_dictSet_ne (d : JDict) {k k' : String} (v : JVal)
    (h : k' ≠ k) : dictGet (dictSet d k' v) k = dictGet d k := by
  induction d with
  | nil =>
    have hb : (k' == k) = false := by simpa using h
    simp [dictSet, dictGet, List.find?, hb]
  | cons kv rest ih =>
    obtain ⟨k₀, v₀⟩ := kv
    by_cases h0 : k₀ = k'
    · subst h0
      have hbk : (k₀ == k) = false := by simpa using h
      simp [dictSet, dictGet, List.find?, hbk]
    · have hb : (k₀ == k') = false := by simpa using h0
      simp only [dictSet, hb, Bool.false_eq_true, if_false]
      by_cases hk : k₀ = k
      · subst hk
        simp [dictGet, List.find?]
      · have hbk : (k₀ == k) = false := by simpa using hk
        simp only [dictGet, List.find?, hbk] at ih ⊢
        exact ih

theorem dictGet_normalizeListKey_ne (d : JDict) {k k' : String}
    (h : k' ≠ k) : dictGet (normalizeListKey d k') k = dictGet d k := by
  unfold normalizeListKey
  cases dictGet d k' with
  | none => exact dictGet_dictSet_ne d _ h
  | some v =>
    by_cases hl : isJList v = true
    · simp [hl]
    · have hl' : isJList v = false := by simpa using hl
      simp only [hl', Bool.false_eq_true, if_false]
      exact dictGet_dictSet_ne d _ h

/-! ## Claim C6: `match_score` coercion and clamping -/

/-- Claim C6: the JD-match result always carries an integer
`match_score` in [0, 100]; a missing or non-convertible raw value yields
0, and a convertible raw value is clamped into [0, 100]. -/
theorem match_score_clamped (data : JDict) :
    ∃ m : Int,
      dictGet (analyze_with_jd_norm data) "match_score" = some (.num m) ∧
      0 ≤ m ∧ m ≤ 100 ∧
      (dictGet data "match_score" = none → m = 0) ∧
      (∀ v, dictGet data "match_score" = some v → pyInt v = none → m = 0) ∧
      (∀ v n, dictGet data "match_score" = some v → pyInt v = some n →
        m = max 0 (min 100 n)) := by
  refine ⟨max 0 (min 100 (match dictGet data "match_score" with
    | some v => (pyInt v).getD 0
    | none => 0)), ?_, le_max_left 0 _, max_le (by norm_num) (min_le_left _ _),
    ?_, ?_, ?_⟩
  · simp only [analyze_with_jd_norm, jdListKeys, List.foldl_cons, List.foldl_nil]
    rw [dictGet_normalizeListKey_ne _ (by decide),
      dictGet_normalizeListKey_ne _ (by decide),
      dictGet_normalizeListKey_ne _ (by decide),
      dictGet_dictSet_same]
  · intro hnone
    simp [hnone]
  · intro v hv hconv
    simp [hv, hconv]
  · intro v n hv hconv
    simp [hv, hconv]

/-- Witness for `match_score_clamped`: a raw `match_score` of 150 is
clamped to 100. -/
theorem match_score_clamped_witness :
    dictGet (analyze_with_jd_norm [("match_score", JVal.num 150)])
      "match_score" = some (.num 100) := by
  obtain ⟨m, hget, _, _, _, _, hconv⟩ :=
    match_score_clamped [("match_score", JVal.num 150)]
  have hm : m = max 0 (min 100 150) := hconv (.num 150) 150 rfl rfl
  rw [hget, hm]
  rfl

/-! ## Claim C10: the report reads a key the review never writes -/

theorem dictGet_analyze_resume_norm_exec (data : JDict) :
    dictGet (analyze_resume_norm data) "executive_summary" =
      dictGet data "executive_summary" := by
  unfold analyze_resume_norm
  simp only [generalListKeys, List.foldl_cons, List.foldl_nil]
  rw [dictGet_dictSet_ne _ _ (by decide),
    dictGet_normalizeListKey_ne _ (by decide),
    dictGet_normalizeListKey_ne _ (by decide),
    dictGet_normalizeListKey_ne _ (by decide),
    dictGet_normalizeListKey_ne _ (by decide),
    dictGet_normalizeListKey_ne _ (by decide),
    dictGet_dictSet_ne _ _ (by decide)]

/-- Claim C10: the general review stores its summary under the key
`summary` and never writes `executive_summary`, while the downloadable
report builder reads `executive_summary`; hence for every general
analysis result (any response whose raw JSON does not itself smuggle in
an `executive_summary` key — the documented result shape has none) the
report's Executive Summary section body is the empty string. -/
theorem exec_summary_body_empty (llm : List Message → JDict)
    (resume_text : List Char) (role : Option (List Char))
    (h : dictGet (llm (build_message_general resume_text role))
      "executive_summary" = none) :
    execSummaryBody (analyze_resume llm resume_text role) = [] ∧
    ∃ s, dictGet (analyze_resume llm resume_text role) "summary" =
      some (.str s) := by
  constructor
  · unfold analyze_resume execSummaryBody dictGetD
    rw [dictGet_analyze_resume_norm_exec, h]
    rfl
  · unfold analyze_resume analyze_resume_norm
    exact ⟨_, dictGet_dictSet_same _ _ _⟩

/-- Witness for `exec_summary_body_empty`: a response carrying a
non-empty `summary` still produces an empty Executive Summary body. -/
theorem exec_summary_body_empty_witness :
    execSummaryBody (analyze_resume
      (fun _ => [("summary", JVal.str ("great").toList)]) [] none) = [] ∧
    dictGet (analyze_resume
      (fun _ => [("summary", JVal.str ("great").toList)]) [] none)
      "summary" = some (.str ("great").toList) := by
  obtain ⟨h1, s, h2⟩ := exec_summary_body_empty
    (fun _ => [("summary", JVal.str ("great").toList)]) [] none rfl
  exact ⟨h1, by decide⟩

/-! ## Claim C1: role defaulting in the request builders -/

set_option maxRecDepth 100000 in
/-- Counterexample to claim C1 as stated: for the whitespace-only role
`" "`, `role or "general applications"` keeps the truthy `" "`, which
then strips to the empty string — so the builders embed the empty string,
not the default role, and the constructed requests differ from the
absent-role requests (which do embed the default). -/
theorem blank_role_counterexample :
    roleOrDefault (some [' ']) = [] ∧
    build_message_general [] (some [' ']) ≠ build_message_general [] none ∧
    build_message_with_jd [] [] (some [' ']) ≠
      build_message_with_jd [] [] none := by
  refine ⟨by decide, by decide, by decide⟩

/-- Claim C1 as amended: for a role argument that is absent (`None`) or
the empty string, both builders construct exactly the request they would
construct for the explicit role `"general applications"` (the resolved
role is the default); a whitespace-only role instead strips to the empty
string. -/
theorem role_defaulting (resume_text jd_text : List Char)
    (role : Option (List Char)) (h : role = none ∨ role = some []) :
    roleOrDefault role = defaultRole ∧
    build_message_general resume_text role =
      build_message_general resume_text (some defaultRole) ∧
    build_message_with_jd resume_text jd_text role =
      build_message_with_jd resume_text jd_text (some defaultRole) := by
  have hr : roleOrDefault role = defaultRole := by
    rcases h with h | h <;> rw [h] <;> decide
  have hr' : roleOrDefault (some defaultRole) = defaultRole := by decide
  refine ⟨hr, ?_, ?_⟩
  · simp only [build_message_general, hr, hr']
  · simp only [build_message_with_jd, hr, hr']

/-- Witness for `role_defaulting` at concrete inputs. -/
theorem role_defaulting_witness :
    roleOrDefault none = defaultRole ∧
    build_message_general ['r'] none =
      build_message_general ['r'] (some defaultRole) ∧
    build_message_with_jd ['r'] ['j'] none =
      build_message_with_jd ['r'] ['j'] (some defaultRole) :=
  role_defaulting ['r'] ['j'] none (Or.inl rfl)

/-! ## Claim C9: independent truncation to 20,000 characters -/

/-- Claim C9: each builder embeds the first 20,000 characters of the
resume (and, for the JD builder, of the job description) in its user
message, and the constructed request depends on nothing beyond those
characters: inputs agreeing on their first 20,000 characters produce
identical requests. -/
theorem truncation_20000 (r₁ r₂ j₁ j₂ : List Char)
    (role : Option (List Char))
    (hr : r₁.take 20000 = r₂.take 20000)
    (hj : j₁.take 20000 = j₂.take 20000) :
    build_message_general r₁ role = build_message_general r₂ role ∧
    build_message_with_jd r₁ j₁ role = build_message_with_jd r₂ j₂ role ∧
    (∃ sys pre post, build_message_general r₁ role =
      [sys, ⟨("user").toList, pre ++ r₁.take 20000 ++ post⟩]) ∧
    (∃ sys pre mid post, build_message_with_jd r₁ j₁ role =
      [sys, ⟨("user").toList,
        pre ++ r₁.take 20000 ++ mid ++ j₁.take 20000 ++ post⟩]) := by
  refine ⟨?_, ?_, ?_, ?_⟩
  · simp only [build_message_general, hr]
  · simp only [build_message_with_jd, hr, hj]
  · refine ⟨⟨("system").toList,
      ("You are an expert resume reviewer with years of experience in HR and recruitment. Be specific, concise, and actionable.").toList⟩,
      ("Analyze the following resume and score it on clarity, impact, skills relevance, and formatting.\nRole to target: ").toList ++
      roleOrDefault role ++ ("\n\n").toList ++ RUBRIC_GENERAL ++
      ("\n\nResume:\n\"\"\"").toList, ("\"\"\"").toList, ?_⟩
    simp [build_message_general]
  · refine ⟨⟨("system").toList,
      ("You are a senior technical recruiter and ATS specialist. Be precise, extract concrete skills, and output valid JSON only.").toList⟩,
      ("Perform ATS-style matching for the target role: **").toList ++
      roleOrDefault role ++
      ("**.\nFollow the rubric strictly and output valid JSON only.\n\n").toList ++
      RUBRIC_JD ++ ("\n\nResume:\n\"\"\"").toList,
      ("\"\"\"\n\nJob Description:\n\"\"\"").toList, ("\"\"\"").toList, ?_⟩
    simp [build_message_with_jd]

/-- Witness for `truncation_20000`: two pairs of inputs that differ only
beyond position 20,000 yield identical requests. -/
theorem truncation_20000_witness :
    build_message_general (List.replicate 20000 'a' ++ ['b']) none =
      build_message_general (List.replicate 20000 'a' ++ ['c']) none ∧
    build_message_with_jd (List.replicate 20000 'a' ++ ['b'])
        (List.replicate 20000 'x' ++ ['y']) none =
      build_message_with_jd (List.replicate 20000 'a' ++ ['c'])
        (List.replicate 20000 'x' ++ ['z']) none := by
  have hr : (List.replicate 20000 'a' ++ ['b']).take 20000 =
      (List.replicate 20000 'a' ++ ['c']).take 20000 := by
    rw [@List.take_append_of_le_length Char (List.replicate 20000 'a') ['b']
        20000 (by simp only [List.length_replicate]; omega),
      @List.take_append_of_le_length Char (List.replicate 20000 'a') ['c']
        20000 (by simp only [List.length_replicate]; omega)]
  have hj : (List.replicate 20000 'x' ++ ['y']).take 20000 =
      (List.replicate 20000 'x' ++ ['z']).take 20000 := by
    rw [@List.take_append_of_le_length Char (List.replicate 20000 'x') ['y']
        20000 (by simp only [List.length_replicate]; omega),
      @List.take_append_of_le_length Char (List.replicate 20000 'x') ['z']
        20000 (by simp only [List.length_replicate]; omega)]
  obtain ⟨h1, h2, -, -⟩ := truncation_20000 _ _ _ _ none hr hj
  exact ⟨h1, h2⟩

/-! ## Claim C5: retry policy of the remote call -/

/-- Claim C5: the remote call is attempted at most 3 times in total (the
result depends only on the outcomes of attempts 1-3); a success at any of
the three attempts returns that result with no error; only after all
three attempts fail does the client fail with the unavailability error;
and the backoff waits are 1 then 2 time units, every wait of the schedule
being capped at 8. -/
theorem retry_policy {E A : Type} (f : Nat → Except E A) :
    (∀ a, f 1 = .ok a → call_openai f = (.ok a, [])) ∧
    (∀ e a, f 1 = .error e → f 2 = .ok a → call_openai f = (.ok a, [1])) ∧
    (∀ e₁ e₂ a, f 1 = .error e₁ → f 2 = .error e₂ → f 3 = .ok a →
      call_openai f = (.ok a, [1, 2])) ∧
    (∀ e₁ e₂ e₃, f 1 = .error e₁ → f 2 = .error e₂ → f 3 = .error e₃ →
      call_openai f = (.error ⟨e₃⟩, [1, 2])) ∧
    (∀ g : Nat → Except E A,
      (∀ n, 1 ≤ n → n ≤ stopAfterAttempt → f n = g n) →
      call_openai f = call_openai g) ∧
    (waitExponential 1 = 1 ∧ waitExponential 2 = 2 ∧
      ∀ n, waitExponential n ≤ 8) := by
  refine ⟨?_, ?_, ?_, ?_, ?_, rfl, rfl, ?_⟩
  · intro a h1
    simp [call_openai, stopAfterAttempt, retryGo, h1]
  · intro e a h1 h2
    simp [call_openai, stopAfterAttempt, retryGo, h1, h2, waitExponential]
  · intro e₁ e₂ a h1 h2 h3
    simp [call_openai, stopAfterAttempt, retryGo, h1, h2, h3, waitExponential]
  · intro e₁ e₂ e₃ h1 h2 h3
    simp [call_openai, stopAfterAttempt, retryGo, h1, h2, h3, waitExponential]
  · intro g hg
    have h1 := hg 1 (by omega) (by decide)
    have h2 := hg 2 (by omega) (by decide)
    have h3 := hg 3 (by omega) (by decide)
    have hgo : retryGo f 1 (stopAfterAttempt - 1) =
        retryGo g 1 (stopAfterAttempt - 1) := by
      show retryGo f 1 2 = retryGo g 1 2
      simp only [retryGo, h1, h2, h3]
    simp only [call_openai, hgo]
  · intro n
    simp [waitExponential]

/-- Witness for `retry_policy`: two failures then a success yield the
successful result after waits of 1 and 2; three failures yield the
unavailability error. -/
theorem retry_policy_witness :
    call_openai (fun n => if n = 3 then (Except.ok 0 : Except Nat Nat)
        else .error n) = (.ok 0, [1, 2]) ∧
    call_openai (fun _ => (Except.error 5 : Except Nat Nat)) =
      (.error ⟨5⟩, [1, 2]) := by
  constructor
  · exact (retry_policy _).2.2.1 1 2 0 rfl rfl rfl
  · exact (retry_policy _).2.2.2.1 5 5 5 rfl rfl rfl

end AiResumeReviewer
